import Mathlib

/-!
Shallow embedding of the Orbis FAF5 data-preparation pipeline
(`orbis.py`): an in-memory table model and the ingestion, cleaning,
profiling and validation operations of the source, together with
theorems checking the specification's claims against them.

Modelling conventions:
* a table is an ordered list of named, typed columns; a cell is an
  `Option Val` where `none` models NaN/NA;
* machine floats are modelled as rationals (`Rat`);
* the dataframe engine's element-wise numeric parser (pandas
  `to_numeric`) is a parameter `p : String → Option Rat` of the
  operations that use it; a concrete model `pyParseNumber` is provided
  for concrete examples;
* the source directory is modelled as an optional list of entries
  (`none` models a missing/unreadable directory), each entry a file
  name paired with its parse result (`none` models an unparseable CSV).
-/

namespace Orbis

/-- A non-null table value: text or a number (numbers are modelled as
rationals, standing for the engine's int/float values). -/
inductive Val where
  | str (s : String)
  | num (q : Rat)
deriving DecidableEq

/-- A cell is a nullable value; `none` models NaN/NA. -/
abbrev Cell := Option Val

/-- Column dtype as the dataframe engine tracks it: `obj` covers the
object/string (text or mixed) dtypes, `numeric` the number dtypes. -/
inductive Dtype where
  | obj
  | numeric
deriving DecidableEq

/-- A named, typed column: an ordered list of nullable cells. -/
structure Column where
  name : String
  dtype : Dtype
  cells : List Cell
deriving DecidableEq

/-- A table: an ordered list of columns, row-aligned by index. -/
structure Table where
  cols : List Column
deriving DecidableEq

/-- Row count of a table, as the engine's `len(df)`: the length of the
first column (0 for a table with no columns). -/
def Table.nrows (t : Table) : Nat :=
  match t.cols with
  | [] => 0
  | c :: _ => c.cells.length

/-- The `i`-th row of a table: the `i`-th cell of each column in column
order (missing positions read as null). -/
def Table.row (t : Table) (i : Nat) : List Cell :=
  t.cols.map (fun c => c.cells.getD i none)

/-- The rows of a table, in order. -/
def Table.rows (t : Table) : List (List Cell) :=
  (List.range t.nrows).map t.row

/-- Number of null cells of a column (the source's `series.isna().sum()`). -/
def nullCount (c : Column) : Nat := c.cells.countP (fun x => x.isNone)

/-- Number of non-null cells of a column (the source's
`series.notna().sum()`). -/
def nonNullCount (c : Column) : Nat := c.cells.countP (fun x => !x.isNone)

/-- The non-null values of a column, in order (the source's
`series.dropna()`). -/
def nonNullCells (c : Column) : List Val := c.cells.filterMap id

/-- The numeric values among a column's cells, in order (for a numeric
column these are exactly its non-null values). -/
def numericVals (c : Column) : List Rat :=
  c.cells.filterMap (fun x =>
    match x with
    | some (.num q) => some q
    | _ => none)

/-- Keep the first occurrence of each distinct element not already in
`seen`, dropping later repeats; models the engine's first-seen-order
`unique`. -/
def dedupFirstAux {α : Type} [DecidableEq α] : List α → List α → List α
  | [], _ => []
  | x :: xs, seen =>
    if x ∈ seen then dedupFirstAux xs seen
    else x :: dedupFirstAux xs (x :: seen)

/-- Keep the first occurrence of each distinct element of a list, in
order (the engine's `unique` / first-occurrence de-duplication). -/
def dedupFirst {α : Type} [DecidableEq α] (l : List α) : List α :=
  dedupFirstAux l []

/-- Python's `str.isalnum` restricted to ASCII letters and digits, as the
engine sees column-name characters. -/
def pyIsAlnum (c : Char) : Bool := c.isAlpha || c.isDigit

/-- Drop the characters satisfying `p` from both ends of a character
list; models Python's `str.strip` family. -/
def stripChars (p : Char → Bool) (l : List Char) : List Char :=
  ((l.dropWhile p).reverse.dropWhile p).reverse

/-- Collapse every run of consecutive underscores to a single underscore:
the net effect of the source's `while "__" in s: s = s.replace("__", "_")`
loop. -/
def collapseUnderscores : List Char → List Char
  | [] => []
  | [c] => [c]
  | a :: b :: rest =>
    if a = '_' && b = '_' then collapseUnderscores (b :: rest)
    else a :: collapseUnderscores (b :: rest)

/-- Replace a non-alphanumeric character by an underscore, keep the rest
(the source's `c if c.isalnum() else "_"`). -/
def sanitizeChar (c : Char) : Char := if pyIsAlnum c then c else '_'

/-- The source's `normalize_column_name`: strip, lowercase, replace
non-alphanumeric characters by `_`, collapse runs of `_`, strip leading
and trailing `_`, and fall back to `"column"` when everything vanished. -/
def normalize_column_name (name : String) : String :=
  let lowered := (stripChars Char.isWhitespace name.toList).map Char.toLower
  let safe := lowered.map sanitizeChar
  let collapsed := collapseUnderscores safe
  let stripped := stripChars (fun c => c = '_') collapsed
  if stripped.isEmpty then "column" else String.mk stripped

example : normalize_column_name "  Total Cost ($)  " = "total_cost" := by decide

example : normalize_column_name "SKU-ID" = "sku_id" := by decide

example : normalize_column_name "($)" = "column" := by decide

/-- Lowercasing is idempotent on characters. -/
lemma toLower_toLower (c : Char) : Char.toLower (Char.toLower c) = Char.toLower c := by
  simp only [Char.toLower]
  split
  · rename_i h
    have hv : (Char.ofNat (c.toNat + 32)).toNat = c.toNat + 32 := by
      obtain ⟨h1, h2⟩ := h
      set n := c.toNat with hn
      interval_cases n <;> decide
    rw [hv, if_neg (by omega)]
  · rfl

/-- A character that survives normalization: an underscore, or a
lowercase-fixed alphanumeric character. -/
def NormalChar (c : Char) : Prop :=
  c = '_' ∨ (pyIsAlnum c = true ∧ Char.toLower c = c)

lemma normalChar_sanitize_toLower (d : Char) :
    NormalChar (sanitizeChar (Char.toLower d)) := by
  unfold sanitizeChar
  split
  · rename_i h
    exact Or.inr ⟨h, toLower_toLower d⟩
  · exact Or.inl rfl

lemma pyIsAlnum_not_whitespace (c : Char) (h : pyIsAlnum c = true) :
    c.isWhitespace = false := by
  simp only [Char.isWhitespace, Bool.or_eq_false_iff, decide_eq_false_iff_not]
  refine ⟨⟨⟨?_, ?_⟩, ?_⟩, ?_⟩ <;> rintro rfl <;> revert h <;> decide

lemma normalChar_not_whitespace {c : Char} (h : NormalChar c) :
    c.isWhitespace = false := by
  rcases h with rfl | ⟨h, _⟩
  · decide
  · exact pyIsAlnum_not_whitespace c h

lemma normalChar_toLower {c : Char} (h : NormalChar c) : Char.toLower c = c := by
  rcases h with rfl | ⟨_, h⟩
  · decide
  · exact h

lemma normalChar_sanitize {c : Char} (h : NormalChar c) : sanitizeChar c = c := by
  rcases h with rfl | ⟨h, _⟩
  · decide
  · simp [sanitizeChar, h]

lemma mem_collapseUnderscores {c : Char} :
    ∀ {l : List Char}, c ∈ collapseUnderscores l → c ∈ l := by
  intro l
  induction l with
  | nil => simp [collapseUnderscores]
  | cons a tail ih =>
    cases tail with
    | nil => simp [collapseUnderscores]
    | cons b rest =>
      simp only [collapseUnderscores]
      split
      · intro h
        exact List.mem_cons_of_mem a (ih h)
      · intro h
        rcases List.mem_cons.1 h with rfl | h
        · exact List.mem_cons_self _ _
        · exact List.mem_cons_of_mem a (ih h)

lemma stripChars_isInfixOf (p : Char → Bool) (l : List Char) :
    (stripChars p l) <:+: l := by
  unfold stripChars
  have h1 : (l.dropWhile p) <:+ l := List.dropWhile_suffix p
  have h2 : ((l.dropWhile p).reverse.dropWhile p) <:+ (l.dropWhile p).reverse :=
    List.dropWhile_suffix p
  have h3 : ((l.dropWhile p).reverse.dropWhile p).reverse <+:
      ((l.dropWhile p).reverse).reverse := List.reverse_prefix.2 h2
  rw [List.reverse_reverse] at h3
  exact (h3.isInfix).trans h1.isInfix

lemma mem_stripChars {p : Char → Bool} {c : Char} {l : List Char}
    (h : c ∈ stripChars p l) : c ∈ l :=
  (stripChars_isInfixOf p l).subset h

lemma dropWhile_head?_false {p : Char → Bool} {l : List Char} {x : Char}
    (h : (l.dropWhile p).head? = some x) : p x = false := by
  induction l with
  | nil => simp at h
  | cons a tail ih =>
    rw [List.dropWhile_cons] at h
    split at h
    · exact ih h
    · rename_i hp
      simp only [List.head?_cons, Option.some.injEq] at h
      subst h
      simpa using hp

lemma dropWhile_eq_self_of_head? {p : Char → Bool} {l : List Char}
    (h : ∀ x, l.head? = some x → p x = false) : l.dropWhile p = l := by
  cases l with
  | nil => rfl
  | cons a tail =>
    rw [List.dropWhile_cons, if_neg]
    simp [h a rfl]

lemma suffix_getLast?_eq {l₁ l₂ : List Char} (h : l₁ <:+ l₂) (hne : l₁ ≠ []) :
    l₁.getLast? = l₂.getLast? := by
  obtain ⟨t, rfl⟩ := h
  exact (List.getLast?_append_of_ne_nil t hne).symm

/-- Stripping both ends is idempotent on every character list. -/
lemma stripChars_idem (p : Char → Bool) (l : List Char) :
    stripChars p (stripChars p l) = stripChars p l := by
  set A := l.dropWhile p with hA
  set B := A.reverse.dropWhile p with hB
  have hr : stripChars p l = B.reverse := rfl
  by_cases hBe : B = []
  · rw [hr, hBe]
    rfl
  · have hhead : ∀ x, B.reverse.head? = some x → p x = false := by
      intro x hx
      rw [List.head?_reverse] at hx
      have hsuffix : B <:+ A.reverse := List.dropWhile_suffix p
      rw [suffix_getLast?_eq hsuffix hBe, List.getLast?_reverse] at hx
      exact dropWhile_head?_false (l := l) (by rw [← hA]; exact hx)
    have step1 : B.reverse.dropWhile p = B.reverse :=
      dropWhile_eq_self_of_head? hhead
    have hhead2 : ∀ x, B.reverse.reverse.head? = some x → p x = false := by
      intro x hx
      rw [List.reverse_reverse, hB] at hx
      exact dropWhile_head?_false hx
    have step2 : B.reverse.reverse.dropWhile p = B.reverse.reverse :=
      dropWhile_eq_self_of_head? hhead2
    rw [hr]
    unfold stripChars
    rw [step1, step2, List.reverse_reverse]

lemma stripChars_eq_self_of_forall {p : Char → Bool} {l : List Char}
    (h : ∀ c ∈ l, p c = false) : stripChars p l = l := by
  unfold stripChars
  have h1 : l.dropWhile p = l :=
    dropWhile_eq_self_of_head? (fun x hx => h x (by cases l <;> simp_all))
  rw [h1]
  have h2 : l.reverse.dropWhile p = l.reverse :=
    dropWhile_eq_self_of_head? (fun x hx => by
      apply h
      have : x ∈ l.reverse := by
        cases hl : l.reverse with
        | nil => simp [hl] at hx
        | cons a tail => rw [hl] at hx; simp at hx; simp [hl, hx]
      simpa using this)
  rw [h2, List.reverse_reverse]

/-- No two adjacent underscores survive `collapseUnderscores`. -/
lemma chain'_collapseUnderscores (l : List Char) :
    List.Chain' (fun a b => ¬(a = '_' ∧ b = '_')) (collapseUnderscores l) := by
  induction l with
  | nil => simp [collapseUnderscores]
  | cons a tail ih =>
    cases tail with
    | nil => simp [collapseUnderscores]
    | cons b rest =>
      simp only [collapseUnderscores]
      split
      · exact ih
      · rename_i hguard
        rw [List.chain'_cons']
        refine ⟨?_, ih⟩
        intro y hy
        by_cases ha : a = '_'
        · have hb : b ≠ '_' := by
            intro hb
            exact hguard (by simp [ha, hb])
          have hhead : (collapseUnderscores (b :: rest)).head? = some b := by
            cases rest with
            | nil => rfl
            | cons r rs =>
              simp only [collapseUnderscores]
              rw [if_neg]
              · rfl
              · simp [hb]
          rw [hhead] at hy
          simp only [Option.mem_def, Option.some.injEq] at hy
          subst hy
          rintro ⟨-, hy2⟩
          exact hb hy2
        · rintro ⟨ha2, -⟩
          exact ha ha2

lemma collapseUnderscores_eq_self {l : List Char}
    (h : List.Chain' (fun a b => ¬(a = '_' ∧ b = '_')) l) :
    collapseUnderscores l = l := by
  induction l with
  | nil => rfl
  | cons a tail ih =>
    cases tail with
    | nil => rfl
    | cons b rest =>
      rw [List.chain'_cons] at h
      simp only [collapseUnderscores]
      rw [if_neg, ih h.2]
      simp only [Bool.and_eq_true, decide_eq_true_eq]
      exact fun hc => h.1 hc

/-- Every character of the pre-fallback normalized form is an underscore
or a lowercase-fixed alphanumeric character. -/
lemma normalChar_of_mem_normalized (s : String) {c : Char}
    (h : c ∈ stripChars (fun c => c = '_')
      (collapseUnderscores
        (((stripChars Char.isWhitespace s.toList).map Char.toLower).map sanitizeChar))) :
    NormalChar c := by
  have h1 := mem_collapseUnderscores (mem_stripChars h)
  rw [List.mem_map] at h1
  obtain ⟨e, he, rfl⟩ := h1
  rw [List.mem_map] at he
  obtain ⟨d, _, rfl⟩ := he
  exact normalChar_sanitize_toLower d

/-- Claim C5: `normalize_column_name` is idempotent — normalizing an
already-normalized name returns it unchanged — it maps
`"  Total Cost ($)  "` to `"total_cost"` and `"SKU-ID"` to `"sku_id"`,
and an all-empty result becomes the literal `"column"`. -/
theorem C5_normalize_column_name_idempotent :
    (∀ s : String,
      normalize_column_name (normalize_column_name s) = normalize_column_name s)
    ∧ normalize_column_name "  Total Cost ($)  " = "total_cost"
    ∧ normalize_column_name "SKU-ID" = "sku_id"
    ∧ normalize_column_name "($)" = "column" := by
  refine ⟨?_, by decide, by decide, by decide⟩
  intro s
  set safe := ((stripChars Char.isWhitespace s.toList).map Char.toLower).map
    sanitizeChar with hsafe
  set stripped := stripChars (fun c => c = '_') (collapseUnderscores safe)
    with hstripped
  have hnorm : normalize_column_name s =
      (if stripped.isEmpty then "column" else String.mk stripped) := rfl
  by_cases hempty : stripped.isEmpty = true
  · rw [hnorm, if_pos hempty]
    decide
  · rw [hnorm, if_neg hempty]
    have hmemfacts : ∀ c ∈ stripped, NormalChar c := by
      intro c hc
      exact normalChar_of_mem_normalized s (by rw [hstripped, hsafe] at hc; exact hc)
    have st1 : stripChars Char.isWhitespace stripped = stripped :=
      stripChars_eq_self_of_forall
        (fun c hc => normalChar_not_whitespace (hmemfacts c hc))
    have st2 : stripped.map Char.toLower = stripped := by
      have h := List.map_congr_left (l := stripped) (f := Char.toLower) (g := id)
        (fun c hc => normalChar_toLower (hmemfacts c hc))
      simpa using h
    have st3 : stripped.map sanitizeChar = stripped := by
      have h := List.map_congr_left (l := stripped) (f := sanitizeChar) (g := id)
        (fun c hc => normalChar_sanitize (hmemfacts c hc))
      simpa using h
    have st4 : collapseUnderscores stripped = stripped := by
      apply collapseUnderscores_eq_self
      have hchain := chain'_collapseUnderscores safe
      have hinf : stripped <:+: collapseUnderscores safe := by
        rw [hstripped]
        exact stripChars_isInfixOf _ _
      exact hchain.infix hinf
    have st5 : stripChars (fun c => c = '_') stripped = stripped := by
      rw [hstripped]
      exact stripChars_idem _ _
    have hnorm2 : normalize_column_name (String.mk stripped) =
        (if (stripChars (fun c => c = '_')
            (collapseUnderscores
              (((stripChars Char.isWhitespace
                (String.mk stripped).toList).map Char.toLower).map
                  sanitizeChar))).isEmpty then "column"
          else String.mk (stripChars (fun c => c = '_')
            (collapseUnderscores
              (((stripChars Char.isWhitespace
                (String.mk stripped).toList).map Char.toLower).map
                  sanitizeChar)))) := rfl
    have htl : (String.mk stripped).toList = stripped := rfl
    rw [hnorm2, htl, st1, st2, st3, st4, st5, if_neg hempty]

/-- The collision-resolution loop of the source's
`normalize_column_names`: walk the (original, normalized) pairs in
order with a `seen` dictionary; the first column having a given
normalized name keeps it, the k-th later one gets `_k+1` appended. -/
def resolveLoop : List (String × String) → List (String × Nat) → List (String × String)
  | [], _ => []
  | (orig, normd) :: rest, seen =>
    match seen.lookup normd with
    | none => (orig, normd) :: resolveLoop rest ((normd, 1) :: seen)
    | some k =>
      (orig, normd ++ "_" ++ toString (k + 1)) :: resolveLoop rest ((normd, k + 1) :: seen)

/-- The source's `rename_map` after collision resolution: an association
list from original to final column name, keyed by the distinct original
names in first-occurrence order (a Python dict). -/
def renameMap (names : List String) : List (String × String) :=
  resolveLoop ((dedupFirst names).map (fun n => (n, normalize_column_name n))) []

/-- Rename one column name through the resolved map (`df.rename`): names
not in the map are kept. -/
def applyRename (m : List (String × String)) (n : String) : String :=
  (m.lookup n).getD n

/-- The source's `normalize_column_names`: rename every column through
the collision-resolved normalization map. -/
def normalize_column_names (t : Table) : Table :=
  ⟨t.cols.map (fun c =>
    { c with name := applyRename (renameMap (t.cols.map (fun c => c.name))) c.name })⟩

/-- Column renaming as the specification words it: the i-th column gets
its normalized name, with `_k` appended when it is the k-th (k ≥ 2)
column whose name normalizes to that value. -/
def specResolvedNames (names : List String) : List String :=
  (List.range names.length).map (fun i =>
    let n := (names.map normalize_column_name).getD i ""
    let k := ((names.map normalize_column_name).take i).count n
    if k = 0 then n else n ++ "_" ++ toString (k + 1))

/-- A three-column table whose names collide after normalization in a way
the `_2` suffixing does not disambiguate: `"a "` and `"a"` both normalize
to `"a"`, and the suffixed `"a_2"` collides with the third column. -/
def collideTable : Table :=
  ⟨[⟨"a ", .obj, [some (.str "x")]⟩,
    ⟨"a", .obj, [some (.str "y")]⟩,
    ⟨"a_2", .obj, [some (.str "z")]⟩]⟩

lemma dedupFirstAux_eq_self {α : Type} [DecidableEq α] :
    ∀ (l : List α) (seen : List α), l.Nodup → (∀ x ∈ l, x ∉ seen) →
      dedupFirstAux l seen = l
  | [], _, _, _ => rfl
  | x :: xs, seen, hnd, hout => by
    rw [List.nodup_cons] at hnd
    unfold dedupFirstAux
    rw [if_neg (hout x (List.mem_cons_self x xs))]
    congr 1
    apply dedupFirstAux_eq_self xs _ hnd.2
    intro y hy
    rw [List.mem_cons]
    rintro (rfl | hmem)
    · exact hnd.1 hy
    · exact hout y (List.mem_cons_of_mem x hy) hmem

lemma dedupFirst_eq_self_of_nodup {α : Type} [DecidableEq α] {l : List α}
    (h : l.Nodup) : dedupFirst l = l :=
  dedupFirstAux_eq_self l [] h (fun _ _ => List.not_mem_nil _)

lemma resolveLoop_map_fst :
    ∀ (ps : List (String × String)) (seen : List (String × Nat)),
      (resolveLoop ps seen).map Prod.fst = ps.map Prod.fst
  | [], _ => rfl
  | (o, n) :: rest, seen => by
    unfold resolveLoop
    cases seen.lookup n <;>
      simp [resolveLoop_map_fst rest]

lemma lookup_getD_of_nodup_keys :
    ∀ (m : List (String × String)) (i : Nat), i < m.length →
      (m.map Prod.fst).Nodup →
      m.lookup ((m.getD i ("", "")).1) = some ((m.getD i ("", "")).2)
  | [], i, hi, _ => by simp at hi
  | (k, v) :: rest, 0, _, _ => by simp [List.lookup_cons]
  | (k, v) :: rest, i + 1, hi, hnd => by
    rw [List.map_cons, List.nodup_cons] at hnd
    have hi' : i < rest.length := by simpa using hi
    have hkey : (rest.getD i ("", "")).1 ∈ rest.map Prod.fst := by
      rw [List.getD_eq_getElem _ _ hi']
      exact List.mem_map_of_mem Prod.fst (rest.getElem_mem hi')
    have hne : k ≠ (rest.getD i ("", "")).1 := by
      intro heq
      exact hnd.1 (heq ▸ hkey)
    have hbeq : ((rest.getD i ("", "")).1 == k) = false := by
      rw [beq_eq_false_iff_ne]
      exact fun h => hne h.symm
    simp only [List.getD_cons_succ, List.lookup_cons, hbeq]
    exact lookup_getD_of_nodup_keys rest i hi' hnd.2

/-- Collision resolution as the specification words it, tracked by a
counting function: `prior m` is how many earlier columns normalize to
`m`; the first occurrence keeps the bare name, the k-th later one gets
`_k+1` appended. -/
def specResolve (prior : String → Nat) : List (String × String) → List (String × String)
  | [] => []
  | (o, n) :: rest =>
    (o, if prior n = 0 then n else n ++ "_" ++ toString (prior n + 1)) ::
      specResolve (fun m => if m = n then prior m + 1 else prior m) rest

lemma resolveLoop_eq_specResolve :
    ∀ (ps : List (String × String)) (seen : List (String × Nat)) (prior : String → Nat),
      (∀ n, seen.lookup n = none → prior n = 0) →
      (∀ n k, seen.lookup n = some k → prior n = k ∧ 0 < k) →
      resolveLoop ps seen = specResolve prior ps
  | [], _, _, _, _ => rfl
  | (o, n) :: rest, seen, prior, h1, h2 => by
    have hbump1 : ∀ m, (((n, prior n + 1) :: seen).lookup m = none) →
        (fun m => if m = n then prior m + 1 else prior m) m = 0 := by
      intro m hm
      rw [List.lookup_cons] at hm
      by_cases hmn : m = n
      · rw [show (m == n) = true by simpa [beq_iff_eq] using hmn] at hm
        exact absurd hm (by simp)
      · rw [show (m == n) = false by rw [beq_eq_false_iff_ne]; exact hmn] at hm
        show (if m = n then prior m + 1 else prior m) = 0
        rw [if_neg hmn]
        exact h1 m hm
    have hbump2 : ∀ m k, (((n, prior n + 1) :: seen).lookup m = some k) →
        (fun m => if m = n then prior m + 1 else prior m) m = k ∧ 0 < k := by
      intro m k hm
      rw [List.lookup_cons] at hm
      by_cases hmn : m = n
      · rw [show (m == n) = true by simpa [beq_iff_eq] using hmn] at hm
        simp only [Option.some.injEq] at hm
        subst hm
        show (if m = n then prior m + 1 else prior m) = prior n + 1 ∧ 0 < prior n + 1
        rw [if_pos hmn, hmn]
        omega
      · rw [show (m == n) = false by rw [beq_eq_false_iff_ne]; exact hmn] at hm
        show (if m = n then prior m + 1 else prior m) = k ∧ 0 < k
        rw [if_neg hmn]
        exact h2 m k hm
    cases hlook : seen.lookup n with
    | none =>
      have hp0 : prior n = 0 := h1 n hlook
      have hred : resolveLoop ((o, n) :: rest) seen
          = (o, n) :: resolveLoop rest ((n, 1) :: seen) := by
        simp only [resolveLoop, hlook]
      have hred2 : specResolve prior ((o, n) :: rest)
          = (o, n) :: specResolve (fun m => if m = n then prior m + 1 else prior m)
              rest := by
        simp only [specResolve]
        rw [if_pos hp0]
      rw [hred, hred2]
      have hpair : ((n, (1 : Nat)) : String × Nat) = (n, prior n + 1) := by
        rw [hp0]
      rw [hpair]
      exact congrArg _ (resolveLoop_eq_specResolve rest _ _ hbump1 hbump2)
    | some k =>
      obtain ⟨hpk, hkpos⟩ := h2 n k hlook
      have hred : resolveLoop ((o, n) :: rest) seen
          = (o, n ++ "_" ++ toString (k + 1)) :: resolveLoop rest ((n, k + 1) :: seen) := by
        simp only [resolveLoop, hlook]
      have hred2 : specResolve prior ((o, n) :: rest)
          = (o, n ++ "_" ++ toString (prior n + 1))
            :: specResolve (fun m => if m = n then prior m + 1 else prior m) rest := by
        simp only [specResolve]
        rw [if_neg (by omega)]
      rw [hred, hred2]
      have harg : k + 1 = prior n + 1 := by omega
      rw [harg]
      exact congrArg _ (resolveLoop_eq_specResolve rest _ _ hbump1 hbump2)

/-- The recursive collision resolver, characterized positionally: the
i-th output keeps the original name, and suffixes the normalized one by
its occurrence count among the earlier normalized names. -/
lemma specResolve_eq_positional :
    ∀ (ps : List (String × String)) (prior : String → Nat),
      specResolve prior ps = (List.range ps.length).map (fun i =>
        ((ps.getD i ("", "")).1,
          if prior (ps.getD i ("", "")).2
              + ((ps.map Prod.snd).take i).count (ps.getD i ("", "")).2 = 0
          then (ps.getD i ("", "")).2
          else (ps.getD i ("", "")).2 ++ "_"
            ++ toString (prior (ps.getD i ("", "")).2
              + ((ps.map Prod.snd).take i).count (ps.getD i ("", "")).2 + 1)))
  | [], _ => rfl
  | (o, n) :: rest, prior => by
    rw [List.length_cons, List.range_succ_eq_map, List.map_cons, List.map_map]
    simp only [specResolve]
    refine congrArg₂ List.cons ?_ ?_
    · simp
    · rw [specResolve_eq_positional rest (fun m => if m = n then prior m + 1 else prior m)]
      apply List.map_congr_left
      intro i hi
      rw [List.mem_range] at hi
      simp only [Function.comp, List.getD_cons_succ, List.map_cons,
        List.take_succ_cons, List.count_cons]
      by_cases hnm : (rest.getD i ("", "")).2 = n
      · have hbeq : (n == (rest.getD i ("", "")).2) = true :=
          beq_iff_eq.mpr hnm.symm
        simp only [hbeq, if_pos hnm, if_true]
        refine congrArg₂ Prod.mk rfl ?_
        split_ifs <;> first | rfl | omega | (congr 1; congr 1; omega)
      · have hbeq : (n == (rest.getD i ("", "")).2) = false := by
          rw [beq_eq_false_iff_ne]
          exact fun h => hnm h.symm
        simp only [hbeq, if_neg hnm, Bool.false_eq_true, if_false, Nat.add_zero]

lemma specResolve_map_fst :
    ∀ (prior : String → Nat) (ps : List (String × String)),
      (specResolve prior ps).map Prod.fst = ps.map Prod.fst
  | _, [] => rfl
  | prior, (o, n) :: rest => by
    simp only [specResolve, List.map_cons]
    rw [specResolve_map_fst]

lemma renameMap_eq_of_nodup {names : List String} (h : names.Nodup) :
    renameMap names
      = specResolve (fun _ => 0) (names.map (fun n => (n, normalize_column_name n))) := by
  unfold renameMap
  rw [dedupFirst_eq_self_of_nodup h]
  exact resolveLoop_eq_specResolve _ [] _ (fun _ _ => rfl) (fun n k hk => by simp at hk)

/-- Claim C3 (amended): for a table with distinct original column names,
`normalize_column_names` gives each column its normalized name when it is
the first column with that normalized name, and otherwise the normalized
name suffixed with `_k` where k is its occurrence index among columns
with the same normalized name, in original-column order. -/
theorem C3_collision_suffixing (t : Table)
    (h : (t.cols.map (fun c => c.name)).Nodup) :
    (normalize_column_names t).cols.map (fun c => c.name)
      = specResolvedNames (t.cols.map (fun c => c.name)) := by
  set names := t.cols.map (fun c => c.name) with hnames
  set ps := names.map (fun n => (n, normalize_column_name n)) with hps
  have hm : renameMap names = specResolve (fun _ => 0) ps := renameMap_eq_of_nodup h
  have hpos := specResolve_eq_positional ps (fun _ => 0)
  have hlhs : (normalize_column_names t).cols.map (fun c => c.name)
      = names.map (applyRename (renameMap names)) := by
    rw [hnames]
    unfold normalize_column_names
    simp [List.map_map, Function.comp]
  rw [hlhs]
  have hplen : ps.length = names.length := by
    rw [hps, List.length_map]
  have hmlen : (renameMap names).length = names.length := by
    rw [hm, hpos, List.length_map, List.length_range, hplen]
  have hkeys : (renameMap names).map Prod.fst = names := by
    rw [hm, specResolve_map_fst, hps, List.map_map]
    exact List.map_id names
  apply List.ext_getElem
  · have e1 : (names.map (applyRename (renameMap names))).length = names.length :=
      List.length_map _ _
    have e2 : (specResolvedNames names).length = names.length := by
      unfold specResolvedNames
      rw [List.length_map, List.length_range]
    rw [e1, e2]
  · intro i h1 h2
    have hilen : i < names.length := by simpa using h1
    have hips : i < ps.length := by omega
    have him : i < (renameMap names).length := by omega
    have hgetm : (renameMap names).getD i ("", "")
        = ((ps.getD i ("", "")).1,
          if (0 : Nat) + ((ps.map Prod.snd).take i).count (ps.getD i ("", "")).2 = 0
          then (ps.getD i ("", "")).2
          else (ps.getD i ("", "")).2 ++ "_"
            ++ toString ((0 : Nat)
              + ((ps.map Prod.snd).take i).count (ps.getD i ("", "")).2 + 1)) := by
      rw [hm, hpos]
      rw [List.getD_eq_getElem _ _
        (by rw [List.length_map, List.length_range]; exact hips)]
      rw [List.getElem_map, List.getElem_range]
    have hkey_i : (ps.getD i ("", "")).1 = names[i] := by
      rw [hps, List.getD_eq_getElem _ _ hips, List.getElem_map]
    have hval_i : (ps.getD i ("", "")).2
        = (names.map normalize_column_name).getD i "" := by
      rw [hps, List.getD_eq_getElem _ _ hips, List.getElem_map,
        List.getD_eq_getElem _ _ (by simpa using hilen)]
      exact (List.getElem_map normalize_column_name).symm
    have hsnds : ps.map Prod.snd = names.map normalize_column_name := by
      rw [hps, List.map_map]
      rfl
    have hlook := lookup_getD_of_nodup_keys (renameMap names) i him
      (by rw [hkeys]; exact h)
    have hrhs : (specResolvedNames names)[i]
        = (if ((names.map normalize_column_name).take i).count
              ((names.map normalize_column_name).getD i "") = 0
          then (names.map normalize_column_name).getD i ""
          else (names.map normalize_column_name).getD i "" ++ "_"
            ++ toString (((names.map normalize_column_name).take i).count
              ((names.map normalize_column_name).getD i "") + 1)) := by
      unfold specResolvedNames
      rw [List.getElem_map, List.getElem_range]
    rw [List.getElem_map]
    unfold applyRename
    have hkey2 : names[i] = ((renameMap names).getD i ("", "")).1 := by
      rw [hgetm]
      exact hkey_i.symm
    rw [hkey2, hlook]
    simp only [Option.getD_some]
    rw [hgetm, hrhs]
    dsimp only
    simp only [hval_i, hsnds, Nat.zero_add]

/-- Claim C3 counterexample: on the concrete table with column names
`"a "`, `"a"` and `"a_2"`, the first two both normalize to `"a"` so the
second is suffixed to `"a_2"`, which collides with the third column's
name; the resulting names `["a", "a_2", "a_2"]` are not pairwise
distinct, refuting the claim as stated. -/
theorem C3_counterexample_not_distinct :
    (normalize_column_names collideTable).cols.map (fun c => c.name)
        = ["a", "a_2", "a_2"]
    ∧ ¬ ((normalize_column_names collideTable).cols.map (fun c => c.name)).Nodup := by
  exact ⟨by decide, by decide⟩

/-- Witness for the amended claim C3 at the concrete collision table. -/
theorem C3_collision_suffixing_witness :
    ((collideTable.cols.map (fun c => c.name)).Nodup)
    ∧ (normalize_column_names collideTable).cols.map (fun c => c.name)
        = specResolvedNames (collideTable.cols.map (fun c => c.name)) :=
  ⟨by decide, C3_collision_suffixing collideTable (by decide)⟩

/-- Row indices kept by `df.drop_duplicates()`: those whose row differs
from every earlier row. -/
def keptIndices (t : Table) : List Nat :=
  (List.range t.nrows).filter (fun i => decide (∀ j, j < i → t.row j ≠ t.row i))

/-- The source's `remove_duplicate_rows` (`df.drop_duplicates()`): keep
exactly the rows that are not equal to any earlier row, preserving
order, names and dtypes. -/
def remove_duplicate_rows (t : Table) : Table :=
  ⟨t.cols.map (fun c =>
    { c with cells := (keptIndices t).map (fun i => c.cells.getD i none) })⟩

lemma dedupFirstAux_sublist {α : Type} [DecidableEq α] :
    ∀ (l seen : List α), (dedupFirstAux l seen).Sublist l
  | [], _ => List.Sublist.refl []
  | x :: xs, seen => by
    unfold dedupFirstAux
    split
    · exact (dedupFirstAux_sublist xs seen).cons x
    · exact (dedupFirstAux_sublist xs (x :: seen)).cons₂ x

lemma mem_dedupFirstAux {α : Type} [DecidableEq α] (y : α) :
    ∀ (l seen : List α), y ∈ dedupFirstAux l seen ↔ y ∈ l ∧ y ∉ seen
  | [], seen => by simp [dedupFirstAux]
  | x :: xs, seen => by
    unfold dedupFirstAux
    split
    · rename_i hx
      rw [mem_dedupFirstAux y xs seen]
      constructor
      · rintro ⟨h1, h2⟩
        exact ⟨List.mem_cons_of_mem x h1, h2⟩
      · rintro ⟨h1, h2⟩
        rcases List.mem_cons.1 h1 with rfl | h1
        · exact absurd hx h2
        · exact ⟨h1, h2⟩
    · rename_i hx
      rw [List.mem_cons, mem_dedupFirstAux y xs (x :: seen)]
      constructor
      · rintro (rfl | ⟨h1, h2⟩)
        · exact ⟨List.mem_cons_self _ _, hx⟩
        · refine ⟨List.mem_cons_of_mem x h1, fun hy => h2 ?_⟩
          exact List.mem_cons_of_mem x hy
      · rintro ⟨h1, h2⟩
        rcases List.mem_cons.1 h1 with rfl | h1
        · exact Or.inl rfl
        · by_cases hyx : y = x
          · exact Or.inl hyx
          · refine Or.inr ⟨h1, fun hy => ?_⟩
            rcases List.mem_cons.1 hy with rfl | hy
            · exact hyx rfl
            · exact h2 hy

lemma dedupFirstAux_nodup {α : Type} [DecidableEq α] :
    ∀ (l seen : List α), (dedupFirstAux l seen).Nodup
  | [], _ => List.nodup_nil
  | x :: xs, seen => by
    unfold dedupFirstAux
    split
    · exact dedupFirstAux_nodup xs seen
    · rw [List.nodup_cons]
      refine ⟨fun hx => ?_, dedupFirstAux_nodup xs (x :: seen)⟩
      rw [mem_dedupFirstAux] at hx
      exact hx.2 (List.mem_cons_self x seen)

lemma dedupFirst_sublist {α : Type} [DecidableEq α] (l : List α) :
    (dedupFirst l).Sublist l := dedupFirstAux_sublist l []

lemma dedupFirst_nodup {α : Type} [DecidableEq α] (l : List α) :
    (dedupFirst l).Nodup := dedupFirstAux_nodup l []

lemma mem_dedupFirst {α : Type} [DecidableEq α] {y : α} {l : List α} :
    y ∈ dedupFirst l ↔ y ∈ l := by
  rw [dedupFirst, mem_dedupFirstAux]
  simp

lemma forall_lt_succ_cons_ne {α : Type} (x : α) (xs : List α) (d v : α) (i : Nat) :
    (∀ j, j < i + 1 → (x :: xs).getD j d ≠ v) ↔
      (x ≠ v ∧ ∀ j, j < i → xs.getD j d ≠ v) := by
  constructor
  · intro hf
    refine ⟨hf 0 (Nat.succ_pos i), fun j hj => ?_⟩
    have := hf (j + 1) (by omega)
    simpa using this
  · rintro ⟨h0, hf⟩ j hj
    cases j with
    | zero => simpa using h0
    | succ j =>
      rw [List.getD_cons_succ]
      exact hf j (by omega)

/-- Keeping exactly the first-occurrence indices of a list and reading
the elements back yields the first-occurrence de-duplication. -/
lemma keptRows_eq_dedupFirstAux {α : Type} [DecidableEq α] (d : α) :
    ∀ (l : List α) (seen : List α),
      ((List.range l.length).filter (fun i =>
          decide (l.getD i d ∉ seen ∧ ∀ j, j < i → l.getD j d ≠ l.getD i d))).map
        (fun i => l.getD i d)
      = dedupFirstAux l seen
  | [], seen => rfl
  | x :: xs, seen => by
    rw [List.length_cons, List.range_succ_eq_map, List.filter_cons]
    unfold dedupFirstAux
    by_cases hx : x ∈ seen
    · rw [if_neg (by simp [hx]), if_pos hx]
      rw [List.filter_map, List.map_map]
      have hcongr : (List.range xs.length).filter
            ((fun i => decide ((x :: xs).getD i d ∉ seen
              ∧ ∀ j, j < i → (x :: xs).getD j d ≠ (x :: xs).getD i d)) ∘ Nat.succ)
          = (List.range xs.length).filter (fun i =>
              decide (xs.getD i d ∉ seen ∧ ∀ j, j < i → xs.getD j d ≠ xs.getD i d)) := by
        apply List.filter_congr
        intro i _
        simp only [Function.comp, List.getD_cons_succ]
        rw [decide_eq_decide]
        rw [forall_lt_succ_cons_ne]
        constructor
        · rintro ⟨h1, _, h3⟩
          exact ⟨h1, h3⟩
        · rintro ⟨h1, h2⟩
          exact ⟨h1, fun hxv => h1 (hxv ▸ hx), h2⟩
      rw [hcongr]
      have := keptRows_eq_dedupFirstAux d xs seen
      rw [← this]
      apply List.map_congr_left
      intro i hi
      rw [List.mem_filter, List.mem_range] at hi
      simp [Function.comp]
    · rw [if_pos (by simp [hx]), if_neg hx]
      rw [List.map_cons, List.getD_cons_zero, List.filter_map, List.map_map]
      have hcongr : (List.range xs.length).filter
            ((fun i => decide ((x :: xs).getD i d ∉ seen
              ∧ ∀ j, j < i → (x :: xs).getD j d ≠ (x :: xs).getD i d)) ∘ Nat.succ)
          = (List.range xs.length).filter (fun i =>
              decide (xs.getD i d ∉ (x :: seen)
                ∧ ∀ j, j < i → xs.getD j d ≠ xs.getD i d)) := by
        apply List.filter_congr
        intro i _
        simp only [Function.comp, List.getD_cons_succ]
        rw [decide_eq_decide]
        rw [forall_lt_succ_cons_ne]
        constructor
        · rintro ⟨h1, h2, h3⟩
          refine ⟨fun hy => ?_, h3⟩
          rcases List.mem_cons.1 hy with heq | hy
          · exact h2 (by rw [heq])
          · exact h1 hy
        · rintro ⟨h1, h2⟩
          refine ⟨fun hy => h1 (List.mem_cons_of_mem x hy), fun hxv => ?_, h2⟩
          exact h1 (hxv ▸ List.mem_cons_self x seen)
      rw [hcongr]
      have := keptRows_eq_dedupFirstAux d xs (x :: seen)
      rw [← this]
      refine congrArg₂ List.cons rfl ?_
      apply List.map_congr_left
      intro i hi
      simp [Function.comp]

lemma map_getD_range {α : Type} (l : List α) (d : α) :
    (List.range l.length).map (fun i => l.getD i d) = l := by
  apply List.ext_getElem
  · rw [List.length_map, List.length_range]
  · intro n h1 h2
    rw [List.getElem_map, List.getElem_range, List.getD_eq_getElem _ _ h2]

lemma getD_map_of_lt {α β : Type} (f : α → β) (l : List α) (d : β) {i : Nat}
    (h : i < l.length) : (l.map f).getD i d = f l[i] := by
  rw [List.getD_eq_getElem _ _ (by simpa using h), List.getElem_map]

lemma rows_remove_duplicate_rows (t : Table) :
    (remove_duplicate_rows t).rows = (keptIndices t).map t.row := by
  cases hc : t.cols with
  | nil =>
    have h1 : remove_duplicate_rows t = ⟨[]⟩ := by
      unfold remove_duplicate_rows
      rw [hc]
      rfl
    have h2 : t.nrows = 0 := by
      unfold Table.nrows
      rw [hc]
    have h3 : keptIndices t = [] := by
      unfold keptIndices
      rw [h2]
      rfl
    rw [h1, h3]
    rfl
  | cons c cs =>
    have hnr : (remove_duplicate_rows t).nrows = (keptIndices t).length := by
      unfold remove_duplicate_rows Table.nrows
      rw [hc]
      exact List.length_map _ _
    unfold Table.rows
    rw [hnr]
    have hrow : ∀ i ∈ List.range (keptIndices t).length,
        (remove_duplicate_rows t).row i = t.row ((keptIndices t).getD i 0) := by
      intro i hi
      rw [List.mem_range] at hi
      unfold remove_duplicate_rows Table.row
      rw [List.map_map]
      apply List.map_congr_left
      intro c0 hc0
      simp only [Function.comp]
      rw [getD_map_of_lt _ _ _ hi, List.getD_eq_getElem _ _ hi]
    rw [List.map_congr_left hrow]
    have : (List.range (keptIndices t).length).map
          (fun i => t.row ((keptIndices t).getD i 0))
        = ((List.range (keptIndices t).length).map
            (fun i => (keptIndices t).getD i 0)).map t.row := by
      rw [List.map_map]
      rfl
    rw [this, map_getD_range]

lemma rows_remove_eq_dedupFirst (t : Table) :
    (remove_duplicate_rows t).rows = dedupFirst t.rows := by
  rw [rows_remove_duplicate_rows]
  have hlen : t.rows.length = t.nrows := by
    unfold Table.rows
    rw [List.length_map, List.length_range]
  have hget : ∀ i, i < t.nrows → t.rows.getD i [] = t.row i := by
    intro i hi
    unfold Table.rows
    rw [getD_map_of_lt _ _ _ (by rwa [List.length_range]), List.getElem_range]
  have hkd := keptRows_eq_dedupFirstAux ([] : List Cell) t.rows []
  rw [hlen] at hkd
  have hfilter : (List.range t.nrows).filter (fun i =>
        decide (t.rows.getD i [] ∉ ([] : List (List Cell))
          ∧ ∀ j, j < i → t.rows.getD j [] ≠ t.rows.getD i [])) = keptIndices t := by
    unfold keptIndices
    apply List.filter_congr
    intro i hi
    rw [List.mem_range] at hi
    rw [decide_eq_decide]
    rw [hget i hi]
    constructor
    · rintro ⟨-, h2⟩ j hj
      have := h2 j hj
      rwa [hget j (by omega)] at this
    · intro h2
      refine ⟨by simp, fun j hj => ?_⟩
      rw [hget j (by omega)]
      exact h2 j hj
  rw [hfilter] at hkd
  unfold dedupFirst
  rw [← hkd]
  apply List.map_congr_left
  intro i hi
  have hlt : i < t.nrows := by
    unfold keptIndices at hi
    rw [List.mem_filter, List.mem_range] at hi
    exact hi.1
  exact (hget i hlt).symm

lemma remove_duplicate_rows_idem (t : Table) :
    remove_duplicate_rows (remove_duplicate_rows t) = remove_duplicate_rows t := by
  set u := remove_duplicate_rows t with hu
  have hcells : ∀ c ∈ u.cols, c.cells.length = (keptIndices t).length := by
    intro c hcmem
    rw [hu] at hcmem
    unfold remove_duplicate_rows at hcmem
    rw [List.mem_map] at hcmem
    obtain ⟨c0, -, rfl⟩ := hcmem
    exact List.length_map _ _
  have hnodup : u.rows.Nodup := by
    rw [hu, rows_remove_eq_dedupFirst]
    exact dedupFirst_nodup _
  have hlen : u.rows.length = u.nrows := by
    unfold Table.rows
    rw [List.length_map, List.length_range]
  have hurows : ∀ m, m < u.nrows → u.rows.getD m [] = u.row m := by
    intro m hm
    unfold Table.rows
    rw [getD_map_of_lt _ _ _ (by rwa [List.length_range]), List.getElem_range]
  have hurows? : ∀ m, m < u.nrows → u.rows[m]? = some (u.row m) := by
    intro m hm
    rw [List.getElem?_eq_getElem (by omega)]
    have h1 := hurows m hm
    rw [List.getD_eq_getElem _ _ (by omega)] at h1
    rw [h1]
  have hkeptu : keptIndices u = List.range u.nrows := by
    unfold keptIndices
    apply List.filter_eq_self.2
    intro i hi
    rw [List.mem_range] at hi
    rw [decide_eq_true_eq]
    intro j hj hne
    have hji : j < u.nrows := by omega
    have hdiff := (List.nodup_iff_getElem?_ne_getElem?.1 hnodup) j i hj (by omega)
    rw [hurows? j hji, hurows? i hi, hne] at hdiff
    exact hdiff rfl
  have hred : remove_duplicate_rows u
      = ⟨u.cols.map (fun c =>
          { c with cells := (List.range u.nrows).map (fun i => c.cells.getD i none) })⟩ := by
    unfold remove_duplicate_rows
    rw [hkeptu]
  rw [hred]
  have hfix : ∀ c ∈ u.cols,
      { c with cells := (List.range u.nrows).map (fun i => c.cells.getD i none) } = c := by
    intro c hcmem
    have hne : u.cols ≠ [] := by
      intro h0
      rw [h0] at hcmem
      exact List.not_mem_nil c hcmem
    have hl : c.cells.length = u.nrows := by
      cases hcol : u.cols with
      | nil => exact absurd hcol hne
      | cons c0 cs =>
        have hn0 : u.nrows = c0.cells.length := by
          unfold Table.nrows
          rw [hcol]
        rw [hn0, hcells c0 (by rw [hcol]; exact List.mem_cons_self _ _),
          hcells c hcmem]
    rw [← hl, map_getD_range]
  have : u.cols.map (fun c =>
      { c with cells := (List.range u.nrows).map (fun i => c.cells.getD i none) })
      = u.cols := by
    rw [List.map_congr_left hfix]
    exact List.map_id _
  rw [this]

/-- Claim C4: `remove_duplicate_rows` leaves no two equal rows, its rows
are a subsequence of the input's rows keeping the first occurrence of
each distinct row in order (they equal the first-occurrence
de-duplication of the input rows and have the same row set), and the
operation is idempotent. -/
theorem C4_remove_duplicate_rows_spec (t : Table) :
    (remove_duplicate_rows t).rows = dedupFirst t.rows
    ∧ (remove_duplicate_rows t).rows.Nodup
    ∧ (remove_duplicate_rows t).rows.Sublist t.rows
    ∧ (∀ r, r ∈ (remove_duplicate_rows t).rows ↔ r ∈ t.rows)
    ∧ remove_duplicate_rows (remove_duplicate_rows t) = remove_duplicate_rows t := by
  refine ⟨rows_remove_eq_dedupFirst t, ?_, ?_, ?_, remove_duplicate_rows_idem t⟩
  · rw [rows_remove_eq_dedupFirst]
    exact dedupFirst_nodup _
  · rw [rows_remove_eq_dedupFirst]
    exact dedupFirst_sublist _
  · intro r
    rw [rows_remove_eq_dedupFirst]
    exact mem_dedupFirst

example :
    (remove_duplicate_rows
      ⟨[⟨"a", .numeric, [some (.num 1), some (.num 1)]⟩,
        ⟨"b", .numeric, [some (.num 2), some (.num 2)]⟩]⟩).nrows = 1 := by
  decide

/-- Element-wise numeric coercion (`pd.to_numeric(..., errors="coerce")`):
nulls stay null, numbers stay numbers, text parses through `p` or
becomes null. -/
def coerceCell (p : String → Option Rat) : Cell → Cell
  | none => none
  | some (.num q) => some (.num q)
  | some (.str s) =>
    match p s with
    | some q => some (.num q)
    | none => none

/-- Number of cells that are non-null and whose coercion is non-null: the
numerator of the source's `coerced[non_null_mask].notna().mean()`. -/
def parseOkCount (p : String → Option Rat) (c : Column) : Nat :=
  c.cells.countP (fun x => !x.isNone && !(coerceCell p x).isNone)

/-- One column of the source's `convert_mostly_numeric_columns`: an
object/string column with some non-null values is replaced by its
numeric coercion when the parseable fraction of its non-null values
reaches the threshold; otherwise it is left unchanged. -/
def convertColumn (p : String → Option Rat) (threshold : Rat) (c : Column) : Column :=
  if c.dtype = .obj then
    if nonNullCount c = 0 then c
    else if threshold ≤ (parseOkCount p c : Rat) / (nonNullCount c : Rat) then
      ⟨c.name, .numeric, c.cells.map (coerceCell p)⟩
    else c
  else c

/-- The source's `convert_mostly_numeric_columns`, column-wise over the
table. -/
def convert_mostly_numeric_columns (p : String → Option Rat) (threshold : Rat)
    (t : Table) : Table :=
  ⟨t.cols.map (convertColumn p threshold)⟩

/-- Value of a digit list read in base 10. -/
def digitsVal (l : List Char) : Nat := l.foldl (fun a c => a * 10 + (c.toNat - 48)) 0

/-- Model of the engine's element-wise numeric parser (pandas
`to_numeric`) for concrete examples: optional surrounding whitespace,
optional sign, decimal digits with an optional fractional part. -/
def pyParseNumber (s : String) : Option Rat :=
  let l := stripChars Char.isWhitespace s.toList
  let signed : Bool × List Char :=
    match l with
    | '-' :: rest => (true, rest)
    | '+' :: rest => (false, rest)
    | _ => (false, l)
  let digits := signed.2
  let intPart := digits.takeWhile Char.isDigit
  let rest := digits.dropWhile Char.isDigit
  let build : Option Rat :=
    match rest with
    | [] => if intPart.isEmpty then none else some (digitsVal intPart : Rat)
    | '.' :: frac =>
      if frac.all Char.isDigit && !(intPart.isEmpty && frac.isEmpty) then
        some ((digitsVal intPart : Rat)
          + (digitsVal frac : Rat) / ((10 : Rat) ^ frac.length))
      else none
    | _ => none
  match build with
  | none => none
  | some q => some (if signed.1 then -q else q)

/-- The spec's example column, `{"a": ["1", "2", "x", None]}`. -/
def exampleNumericCol : Column :=
  ⟨"a", .obj, [some (.str "1"), some (.str "2"), some (.str "x"), none]⟩

/-- Claim C1: an object/string column with at least one non-null value is
converted to numeric by `convert_mostly_numeric_columns` exactly when the
fraction of its non-null values that parse as numbers reaches the
threshold; a converted column is the element-wise numeric coercion
(unparseable values become null) and an unconverted one is unchanged;
the operation acts column-wise on the table; and the example column
`["1", "2", "x", null]` converts at threshold 1/2 (with "x" becoming
null) but not at threshold 9/10. -/
theorem C1_convert_mostly_numeric (p : String → Option Rat) (threshold : Rat)
    (t : Table) (c : Column) (hdt : c.dtype = .obj) (hnn : 0 < nonNullCount c) :
    (convert_mostly_numeric_columns p threshold t
        = ⟨t.cols.map (convertColumn p threshold)⟩)
    ∧ ((convertColumn p threshold c).dtype = .numeric
        ↔ threshold ≤ (parseOkCount p c : Rat) / (nonNullCount c : Rat))
    ∧ (threshold ≤ (parseOkCount p c : Rat) / (nonNullCount c : Rat) →
        convertColumn p threshold c
          = ⟨c.name, .numeric, c.cells.map (coerceCell p)⟩)
    ∧ (¬ threshold ≤ (parseOkCount p c : Rat) / (nonNullCount c : Rat) →
        convertColumn p threshold c = c)
    ∧ convertColumn pyParseNumber (1/2) exampleNumericCol
        = ⟨"a", .numeric, [some (.num 1), some (.num 2), none, none]⟩
    ∧ convertColumn pyParseNumber (9/10) exampleNumericCol = exampleNumericCol := by
  have hne : ¬(nonNullCount c = 0) := by omega
  have hcc : convertColumn p threshold c
      = if threshold ≤ (parseOkCount p c : Rat) / (nonNullCount c : Rat)
        then ⟨c.name, .numeric, c.cells.map (coerceCell p)⟩ else c := by
    unfold convertColumn
    rw [if_pos hdt, if_neg hne]
  refine ⟨rfl, ?_, ?_, ?_, ?_, ?_⟩
  · rw [hcc]
    by_cases hth : threshold ≤ (parseOkCount p c : Rat) / (nonNullCount c : Rat)
    · rw [if_pos hth]
      simp [hth]
    · rw [if_neg hth]
      rw [hdt]
      simp [hth]
  · intro hth
    rw [hcc, if_pos hth]
  · intro hth
    rw [hcc, if_neg hth]
  · have h2 : parseOkCount pyParseNumber exampleNumericCol = 2 := by decide
    have h3 : nonNullCount exampleNumericCol = 3 := by decide
    unfold convertColumn
    rw [if_pos (by decide), if_neg (by decide), h2, h3,
      if_pos (by norm_num)]
    decide
  · have h2 : parseOkCount pyParseNumber exampleNumericCol = 2 := by decide
    have h3 : nonNullCount exampleNumericCol = 3 := by decide
    unfold convertColumn
    rw [if_pos (by decide), if_neg (by decide), h2, h3,
      if_neg (by norm_num)]

/-- Witness for claim C1 at the example column and threshold 1/2. -/
theorem C1_convert_mostly_numeric_witness :
    exampleNumericCol.dtype = .obj
    ∧ 0 < nonNullCount exampleNumericCol
    ∧ ((convertColumn pyParseNumber (1/2) exampleNumericCol).dtype = .numeric
        ↔ (1:Rat)/2 ≤ (parseOkCount pyParseNumber exampleNumericCol : Rat)
            / (nonNullCount exampleNumericCol : Rat))
    ∧ convertColumn pyParseNumber (1/2) exampleNumericCol
        = ⟨"a", .numeric, [some (.num 1), some (.num 2), none, none]⟩ := by
  have h := C1_convert_mostly_numeric pyParseNumber (1/2)
    ⟨[exampleNumericCol]⟩ exampleNumericCol (by decide) (by decide)
  exact ⟨by decide, by decide, h.2.1, h.2.2.2.2.1⟩

/-- A directory entry: a file name and, for CSV files, the table the
engine parses from it (`none` models an unparseable file). -/
abbrev DirEntry := String × Option Table

/-- Ingestion failures, per the specification's taxonomy:
`directoryNotFound` when the source directory is missing or not a
directory, `csvParseError` when one file cannot be parsed (wrapping the
offending path). -/
inductive IngestError where
  | directoryNotFound
  | csvParseError (fileName : String)
deriving DecidableEq

/-- The four reserved output filenames excluded from ingestion. -/
def excludedFilenames : List String :=
  ["FAF5_MERGED.csv", "FAF5_MERGED_CLEANED.csv",
   "FAF5_VALIDATION_COLUMNS.csv", "FAF5_VALIDATION_ISSUES.csv"]

/-- Eligibility of a file name for ingestion: case-insensitive `.csv`
extension test, exact (case-sensitive) exclusion of the reserved output
filenames. -/
def isEligibleName (n : String) : Bool :=
  ((n.toList.map Char.toLower).reverse.take 4 = ['v', 's', 'c', '.'])
    && !(excludedFilenames.contains n)

/-- Insertion of a directory entry into a name-sorted list. -/
def insertEntry (e : DirEntry) : List DirEntry → List DirEntry
  | [] => [e]
  | f :: fs => if e.1 ≤ f.1 then e :: f :: fs else f :: insertEntry e fs

/-- Sort directory entries by file name (`sorted(os.listdir(...))`). -/
def sortEntries (l : List DirEntry) : List DirEntry := l.foldr insertEntry []

/-- The eligible entries of a directory listing, in sorted name order. -/
def eligibleEntries (d : List DirEntry) : List DirEntry :=
  (sortEntries d).filter (fun e => isEligibleName e.1)

/-- The source's `df["source_file"] = file_name`: overwrite the column
when present, else append it at the end, every row set to the file
name. -/
def tagSource (t : Table) (fname : String) : Table :=
  if t.cols.any (fun c => c.name = "source_file") then
    ⟨t.cols.map (fun c =>
      if c.name = "source_file" then
        ⟨c.name, .obj, List.replicate t.nrows (some (.str fname))⟩
      else c)⟩
  else
    ⟨t.cols ++ [⟨"source_file", .obj, List.replicate t.nrows (some (.str fname))⟩]⟩

/-- Read and tag each eligible entry in order, failing at the first file
that cannot be parsed (the source's read loop with its wrapped
exception). -/
def readEntries : List DirEntry → Except IngestError (List Table)
  | [] => .ok []
  | (n, none) :: _ => .error (.csvParseError n)
  | (n, some t) :: rest =>
    match readEntries rest with
    | .error e => .error e
    | .ok ts => .ok (tagSource t n :: ts)

/-- Union of the column names of a list of tables, in first-seen order
(`pd.concat(..., sort=False)` column alignment). -/
def unionNames (ts : List Table) : List String :=
  ts.foldl (fun acc t =>
    acc ++ ((t.cols.map (fun c => c.name)).filter (fun n => !acc.contains n))) []

/-- The column of a table with the given name, if any. -/
def findCol (t : Table) (n : String) : Option Column :=
  t.cols.find? (fun c => c.name = n)

/-- Concatenated cells for one column name: each table contributes its
column's cells, or nulls when it lacks the column. -/
def concatCellsFor (ts : List Table) (n : String) : List Cell :=
  (ts.map (fun t =>
    match findCol t n with
    | some c => c.cells
    | none => List.replicate t.nrows none)).flatten

/-- Dtype of a concatenated column: numeric when every table having the
column has it numeric (null fill keeps numeric columns numeric), object
otherwise. -/
def concatDtype (ts : List Table) (n : String) : Dtype :=
  if ts.all (fun t =>
      match findCol t n with
      | some c => c.dtype = .numeric
      | none => true) then .numeric else .obj

/-- `pd.concat(..., ignore_index=True, sort=False)` over the tagged
tables. -/
def concatTables (ts : List Table) : Table :=
  ⟨(unionNames ts).map (fun n => ⟨n, concatDtype ts n, concatCellsFor ts n⟩)⟩

/-- The source's `read_all_faf5_csvs`: fail when the directory is
missing, read and tag the eligible files in sorted order (failing on the
first parse error), and return the empty table when there are none. -/
def read_all_faf5_csvs (dir : Option (List DirEntry)) : Except IngestError Table :=
  match dir with
  | none => .error .directoryNotFound
  | some d =>
    match readEntries (eligibleEntries d) with
    | .error e => .error e
    | .ok [] => .ok ⟨[]⟩
    | .ok ts => .ok (concatTables ts)

/-- Python `str.strip` on a string. -/
def pyStripString (s : String) : String :=
  String.mk (stripChars Char.isWhitespace s.toList)

/-- Display form of a value (`astype(str)` / `astype("string")`). -/
def cellToStr : Val → String
  | .str s => s
  | .num q => toString q

/-- One cell of `strip_and_standardize_strings`: after `astype("string")`
each non-null value is a string; it is stripped, and an empty result
becomes null. -/
def standardizeCell : Cell → Cell
  | none => none
  | some v =>
    let s2 := pyStripString (cellToStr v)
    if s2 = "" then none else some (.str s2)

/-- The source's `strip_and_standardize_strings`, acting on the
object/string columns only. -/
def strip_and_standardize_strings (t : Table) : Table :=
  ⟨t.cols.map (fun c =>
    if c.dtype = .obj then ⟨c.name, .obj, c.cells.map standardizeCell⟩ else c)⟩

/-- The source's `drop_empty_columns` (`dropna(axis=1, how="all")`):
keep the columns having at least one non-null value. -/
def drop_empty_columns (t : Table) : Table :=
  ⟨t.cols.filter (fun c => c.cells.any (fun x => !x.isNone))⟩

/-- The source's `clean_dataframe`: the five cleaning steps in fixed
order, with the default 0.9 coercion threshold. -/
def clean_dataframe (p : String → Option Rat) (t : Table) : Table :=
  remove_duplicate_rows
    (drop_empty_columns
      (convert_mostly_numeric_columns p (9/10)
        (strip_and_standardize_strings
          (normalize_column_names t))))

/-- Round-half-to-even to an integer (Python's `round`). -/
def roundHalfEven (q : Rat) : Int :=
  let f := q.floor
  let r := q - (f : Rat)
  if r < 1/2 then f
  else if (1 : Rat)/2 < r then f + 1
  else if f % 2 = 0 then f else f + 1

/-- Python `round(x, 6)` on exact rationals. -/
def round6 (q : Rat) : Rat := (roundHalfEven (q * 1000000) : Rat) / 1000000

/-- A percentage field: `round(count / len(df), 6) if len(df) else 0.0`. -/
def pctOf (count n : Nat) : Rat :=
  if n = 0 then 0 else round6 ((count : Rat) / (n : Rat))

/-- One row of the profile table. `stdSquared` models the reported
standard deviation by its square (the sample variance), since the square
root is irrational; `none` models both None and NaN. -/
structure ProfileRow where
  column_name : String
  dtype : String
  count : Nat
  non_null_count : Nat
  null_count : Nat
  null_pct : Rat
  num_unique : Nat
  minV : Option Rat
  maxV : Option Rat
  meanV : Option Rat
  stdSquared : Option Rat
  sample_values : Option String
deriving DecidableEq

/-- Dtype label string of a column, as the engine prints it. -/
def dtypeLabel : Dtype → String
  | .numeric => "float64"
  | .obj => "object"

/-- Sample variance with one delta degree of freedom: the square of the
source's `series.std()`; `none` models the NaN reported for fewer than
two values. -/
def sampleVarOpt (l : List Rat) : Option Rat :=
  if l.length < 2 then none
  else some (((l.map (fun x => (x - l.sum / (l.length : Rat)) ^ 2)).sum)
    / ((l.length : Rat) - 1))

/-- One row of the source's `profile_columns`. -/
def profileOne (c : Column) : ProfileRow :=
  if c.dtype = .numeric then
    { column_name := c.name
      dtype := dtypeLabel c.dtype
      count := c.cells.length
      non_null_count := nonNullCount c
      null_count := nullCount c
      null_pct := pctOf (nullCount c) c.cells.length
      num_unique := (dedupFirst (nonNullCells c)).length
      minV := if nonNullCount c = 0 then none else (numericVals c).min?
      maxV := if nonNullCount c = 0 then none else (numericVals c).max?
      meanV := if nonNullCount c = 0 then none
        else some ((numericVals c).sum / ((numericVals c).length : Rat))
      stdSquared := if nonNullCount c = 0 then none else sampleVarOpt (numericVals c)
      sample_values := none }
  else
    { column_name := c.name
      dtype := dtypeLabel c.dtype
      count := c.cells.length
      non_null_count := nonNullCount c
      null_count := nullCount c
      null_pct := pctOf (nullCount c) c.cells.length
      num_unique := (dedupFirst (nonNullCells c)).length
      minV := none
      maxV := none
      meanV := none
      stdSquared := none
      sample_values := some (String.intercalate ", "
        ((dedupFirst ((nonNullCells c).map cellToStr)).take 5)) }

/-- The source's `profile_columns`: one profile row per column, in
column order. -/
def profile_columns (t : Table) : List ProfileRow := t.cols.map profileOne

/-- A validation issue record. -/
structure Issue where
  issue_type : String
  column : String
  count : Nat
  pct : Rat
  details : String
deriving DecidableEq

/-- Python list repr of naturals, e.g. `[0, 3]`. -/
def natListRepr (l : List Nat) : String :=
  "[" ++ String.intercalate ", " (l.map toString) ++ "]"

/-- Single-quote character, for Python string reprs. -/
def sq : String := String.singleton (Char.ofNat 39)

/-- Python list repr of strings. -/
def strListRepr (l : List String) : String :=
  "[" ++ String.intercalate ", " (l.map (fun s => sq ++ s ++ sq)) ++ "]"

/-- Whether a cell holds a negative number (`df[col] < 0` is false on
nulls). -/
def cellIsNeg : Cell → Bool
  | some (.num q) => q < 0
  | _ => false

/-- Zero-based indices of the negative cells of a column
(`df.index[neg_mask]`). -/
def negIndices (c : Column) : List Nat :=
  (List.range c.cells.length).filter (fun i => cellIsNeg (c.cells.getD i none))

/-- A `missing_values` issue for one column. -/
def mkMissingIssue (t : Table) (c : Column) : Issue :=
  ⟨"missing_values", c.name, nullCount c, pctOf (nullCount c) t.nrows,
    "Column contains missing values"⟩

/-- A `negative_values` issue for one numeric column, with up to 10
sample row indices in the details. -/
def mkNegativeIssue (t : Table) (c : Column) : Issue :=
  ⟨"negative_values", c.name, (negIndices c).length,
    pctOf (negIndices c).length t.nrows,
    "Sample row indices: " ++ natListRepr ((negIndices c).take 10)⟩

/-- Check 1 of `gather_validation_issues`: one `missing_values` issue per
column with at least one null, in column order. -/
def missingIssues (t : Table) : List Issue :=
  t.cols.filterMap (fun c =>
    if 0 < nullCount c then some (mkMissingIssue t c) else none)

/-- Check 2: one `negative_values` issue per numeric column with at least
one negative value, in column order. -/
def negativeIssues (t : Table) : List Issue :=
  t.cols.filterMap (fun c =>
    if c.dtype = .numeric ∧ 0 < (negIndices c).length
    then some (mkNegativeIssue t c) else none)

/-- The stringified `source_file` column (`astype("string")`). -/
def sfStrings (c : Column) : List (Option String) :=
  c.cells.map (Option.map cellToStr)

/-- The non-null stringified `source_file` values outside the allowed
set, in order. -/
def invalidSourceVals (c : Column) (allowed : List String) : List String :=
  (sfStrings c).filterMap (fun x =>
    match x with
    | some s => if allowed.contains s then none else some s
    | none => none)

/-- A `source_file_invalid` issue, listing up to 10 distinct offending
values. -/
def mkInvalidIssue (t : Table) (invalidVals : List String) : Issue :=
  ⟨"source_file_invalid", "source_file", invalidVals.length,
    pctOf invalidVals.length t.nrows,
    "Values not in FAF5 directory: " ++ strListRepr ((dedupFirst invalidVals).take 10)⟩

/-- Check 3: `source_file` integrity issues (missing column, nulls,
empty strings, and — only when the allowed set is non-empty — values
outside the allowed set). -/
def sourceFileIssues (t : Table) (allowed : List String) : List Issue :=
  match findCol t "source_file" with
  | none =>
    [⟨"source_file_missing", "source_file", t.nrows,
      if t.nrows = 0 then 0 else 1,
      "Column " ++ sq ++ "source_file" ++ sq ++ " not found"⟩]
  | some c =>
    let sf := sfStrings c
    let nullc := sf.countP (fun x => x.isNone)
    let i1 := if 0 < nullc then
        [(⟨"source_file_null", "source_file", nullc, pctOf nullc t.nrows,
          "Null values present in " ++ sq ++ "source_file" ++ sq⟩ : Issue)] else []
    let emptyc := sf.countP (fun x =>
        match x with
        | some s => pyStripString s = ""
        | none => false)
    let i2 := if 0 < emptyc then
        [(⟨"source_file_empty", "source_file", emptyc, pctOf emptyc t.nrows,
          "Empty string values present in " ++ sq ++ "source_file" ++ sq⟩ : Issue)] else []
    let i3 := if allowed.isEmpty then []
      else if 0 < (invalidSourceVals c allowed).length
        then [mkInvalidIssue t (invalidSourceVals c allowed)] else []
    i1 ++ i2 ++ i3

/-- Number of rows that duplicate an earlier row
(`df.duplicated().sum()`). -/
def dupRowCount (t : Table) : Nat :=
  ((List.range t.nrows).filter (fun i =>
    !(decide (∀ j, j < i → t.row j ≠ t.row i)))).length

/-- Check 4: at most one row-level `duplicate_rows` issue. -/
def duplicateIssues (t : Table) : List Issue :=
  if 0 < dupRowCount t then
    [⟨"duplicate_rows", "", dupRowCount t, pctOf (dupRowCount t) t.nrows,
      "Exact duplicate rows detected"⟩]
  else []

/-- The eligible CSV names of a directory listing: same exclusion rule
as the ingest step. -/
def eligibleNames (listing : List String) : List String :=
  listing.filter isEligibleName

/-- The allowed source filenames, from an optional directory listing: an
unreadable directory yields the empty set, as the source's
`except: allowed_files = set()`. -/
def allowedOf (listing : Option (List String)) : List String :=
  match listing with
  | none => []
  | some l => eligibleNames l

/-- The source's `gather_validation_issues`: the four checks in fixed
order. -/
def gather_validation_issues (t : Table) (listing : Option (List String)) :
    List Issue :=
  missingIssues t ++ negativeIssues t
    ++ sourceFileIssues t (allowedOf listing) ++ duplicateIssues t

/-- Outcome of one pipeline run. -/
inductive PipelineOutcome where
  | failed (e : IngestError)
  | emptyExit
  | completed (merged cleaned : Table) (profile : List ProfileRow)
      (issues : List Issue)
deriving DecidableEq

/-- Table emptiness as pandas `df.empty`: some axis has length 0. -/
def Table.isEmpty (t : Table) : Bool := t.cols.isEmpty || t.nrows == 0

/-- Orchestration of the source's `main`: ingest; exit early when the
merged table is empty (before writing anything); otherwise clean,
profile and validate. -/
def runPipeline (p : String → Option Rat) (dir : Option (List DirEntry)) :
    PipelineOutcome :=
  match read_all_faf5_csvs dir with
  | .error e => .failed e
  | .ok merged =>
    if merged.isEmpty then .emptyExit
    else
      .completed merged (clean_dataframe p merged)
        (profile_columns (clean_dataframe p merged))
        (gather_validation_issues (clean_dataframe p merged)
          (some ((dir.getD []).map (fun e => e.1))))

/-- The output files `main` writes: none on failure or on the empty
early exit; the merged, cleaned, profile and issues CSVs otherwise. -/
def writtenOutputs : PipelineOutcome → List String
  | .failed _ => []
  | .emptyExit => []
  | .completed _ _ _ _ =>
    ["FAF5_MERGED.csv", "FAF5_MERGED_CLEANED.csv",
     "FAF5_VALIDATION_COLUMNS.csv", "FAF5_VALIDATION_ISSUES.csv"]

/-- Claim C6: when the source directory exists but holds no eligible CSV
file, merging returns the empty table (zero columns, zero rows) without
raising an error, and the pipeline exits early, producing none of the
outputs. -/
theorem C6_empty_merge_early_exit (p : String → Option Rat) (d : List DirEntry)
    (h : eligibleEntries d = []) :
    read_all_faf5_csvs (some d) = .ok ⟨[]⟩
    ∧ (⟨[]⟩ : Table).cols.length = 0
    ∧ (⟨[]⟩ : Table).nrows = 0
    ∧ runPipeline p (some d) = .emptyExit
    ∧ writtenOutputs (runPipeline p (some d)) = [] := by
  have hread : read_all_faf5_csvs (some d) = .ok ⟨[]⟩ := by
    have hdef : read_all_faf5_csvs (some d)
        = (match readEntries (eligibleEntries d) with
          | .error e => .error e
          | .ok [] => .ok ⟨[]⟩
          | .ok ts => .ok (concatTables ts)) := rfl
    rw [hdef, h]
    rfl
  have hrun : runPipeline p (some d) = .emptyExit := by
    unfold runPipeline
    rw [hread]
    rfl
  exact ⟨hread, rfl, rfl, hrun, by rw [hrun]; rfl⟩

/-- Witness for claim C6 at a directory holding only a non-CSV file. -/
theorem C6_empty_merge_early_exit_witness :
    eligibleEntries [(("notes.txt" : String), (none : Option Table))] = []
    ∧ read_all_faf5_csvs (some [("notes.txt", none)]) = .ok ⟨[]⟩
    ∧ runPipeline pyParseNumber (some [("notes.txt", none)]) = .emptyExit := by
  have h := C6_empty_merge_early_exit pyParseNumber [("notes.txt", none)] (by decide)
  exact ⟨by decide, h.1, h.2.2.2.1⟩

lemma readEntries_ne_dirNotFound :
    ∀ (l : List DirEntry), readEntries l ≠ .error .directoryNotFound
  | [] => by simp [readEntries]
  | (n, none) :: rest => by simp [readEntries]
  | (n, some t) :: rest => by
    cases h : readEntries rest with
    | error e =>
      simp only [readEntries, h]
      intro hc
      injection hc with he
      exact readEntries_ne_dirNotFound rest (h.trans (by rw [he]))
    | ok ts => simp [readEntries, h]

lemma readEntries_parse_error_iff (l : List DirEntry) :
    (∃ n, readEntries l = .error (.csvParseError n)) ↔ ∃ e ∈ l, e.2 = none := by
  induction l with
  | nil => simp [readEntries]
  | cons hd rest ih =>
    obtain ⟨n, content⟩ := hd
    cases content with
    | none =>
      constructor
      · intro _
        exact ⟨(n, none), List.mem_cons_self _ _, rfl⟩
      · intro _
        exact ⟨n, by simp [readEntries]⟩
    | some t =>
      constructor
      · rintro ⟨m, hm⟩
        cases h : readEntries rest with
        | error e =>
          simp only [readEntries, h] at hm
          injection hm with he
          obtain ⟨f, hf, hfn⟩ := ih.1 ⟨m, h.trans (by rw [he])⟩
          exact ⟨f, List.mem_cons_of_mem _ hf, hfn⟩
        | ok ts => simp [readEntries, h] at hm
      · rintro ⟨f, hf, hfn⟩
        rcases List.mem_cons.1 hf with rfl | hf
        · simp at hfn
        · obtain ⟨m, hm⟩ := ih.2 ⟨f, hf, hfn⟩
          exact ⟨m, by simp [readEntries, hm]⟩

/-- Claim C9: ingestion fails with `directoryNotFound` exactly when the
source directory is missing, and — for an existing directory — fails
with a `csvParseError` exactly when some eligible CSV file cannot be
parsed; an ingestion error never comes with a (partial) merged table. -/
theorem C9_ingest_error_taxonomy (dir : Option (List DirEntry)) :
    (read_all_faf5_csvs dir = .error .directoryNotFound ↔ dir = none)
    ∧ (∀ d, dir = some d →
        ((∃ n, read_all_faf5_csvs dir = .error (.csvParseError n))
          ↔ ∃ e ∈ eligibleEntries d, e.2 = none))
    ∧ (∀ e, read_all_faf5_csvs dir = .error e →
        ∀ t, read_all_faf5_csvs dir ≠ .ok t) := by
  cases dir with
  | none =>
    refine ⟨by simp [read_all_faf5_csvs], by simp, ?_⟩
    intro e he t
    rw [he]
    simp
  | some d =>
    have hbridge : (∃ n, read_all_faf5_csvs (some d) = .error (.csvParseError n))
        ↔ (∃ n, readEntries (eligibleEntries d) = .error (.csvParseError n)) := by
      cases h : readEntries (eligibleEntries d) with
      | error e =>
        simp only [read_all_faf5_csvs, h]
        constructor
        · rintro ⟨n, hn⟩
          injection hn with he
          exact ⟨n, by rw [he]⟩
        · rintro ⟨n, hn⟩
          injection hn with he
          exact ⟨n, by rw [he]⟩
      | ok ts =>
        cases ts with
        | nil => simp [read_all_faf5_csvs, h]
        | cons t ts => simp [read_all_faf5_csvs, h]
    refine ⟨?_, ?_, ?_⟩
    · constructor
      · intro hc
        exfalso
        cases h : readEntries (eligibleEntries d) with
        | error e =>
          simp only [read_all_faf5_csvs, h] at hc
          injection hc with he
          exact readEntries_ne_dirNotFound _ (h.trans (by rw [he]))
        | ok ts =>
          cases ts with
          | nil => simp [read_all_faf5_csvs, h] at hc
          | cons t ts => simp [read_all_faf5_csvs, h] at hc
      · intro hc
        exact absurd hc (by simp)
    · intro d2 hd2
      injection hd2 with hdd
      subst hdd
      exact hbridge.trans (readEntries_parse_error_iff _)
    · intro e he t
      rw [he]
      simp

/-- Witness for claim C9 at the missing directory and at a directory
holding one unparseable CSV. -/
theorem C9_ingest_error_taxonomy_witness :
    read_all_faf5_csvs none = .error .directoryNotFound
    ∧ (∃ e ∈ eligibleEntries [(("bad.csv" : String), (none : Option Table))],
        e.2 = none)
    ∧ (∃ n, read_all_faf5_csvs (some [(("bad.csv" : String), (none : Option Table))])
        = .error (.csvParseError n)) := by
  refine ⟨(C9_ingest_error_taxonomy none).1.2 rfl, by decide, ?_⟩
  exact ((C9_ingest_error_taxonomy
    (some [("bad.csv", none)])).2.1 _ rfl).2 (by decide)

/-- The one-column table parsed from the case-variant file in the C10
scenario. -/
def caseVariantTable : Table := ⟨[⟨"a", .numeric, [some (.num 5)]⟩]⟩

/-- Claim C10: the `.csv` extension test is case-insensitive while the
reserved-output exclusion is an exact, case-sensitive match:
`"DATA.CSV"` is eligible, `"FAF5_MERGED.csv"` is excluded, but
`"faf5_merged.csv"` — differing from a reserved output name only in
letter case — is eligible, and a directory holding only that file is
read and merged, its row tagged with that source file name. -/
theorem C10_case_sensitive_exclusion :
    isEligibleName "DATA.CSV" = true
    ∧ isEligibleName "FAF5_MERGED.csv" = false
    ∧ "FAF5_MERGED.csv" ∈ excludedFilenames
    ∧ isEligibleName "faf5_merged.csv" = true
    ∧ "faf5_merged.csv" ∉ excludedFilenames
    ∧ read_all_faf5_csvs (some [("faf5_merged.csv", some caseVariantTable)])
        = .ok ⟨[⟨"a", .numeric, [some (.num 5)]⟩,
            ⟨"source_file", .obj, [some (.str "faf5_merged.csv")]⟩]⟩ := by
  refine ⟨by decide, by decide, by decide, by decide, by decide, by rfl⟩

lemma filterMap_if_eq_filter_map {α β : Type} (p : α → Prop) [DecidablePred p]
    (f : α → β) (l : List α) :
    l.filterMap (fun a => if p a then some (f a) else none)
      = (l.filter (fun a => decide (p a))).map f := by
  induction l with
  | nil => rfl
  | cons a as ih =>
    rw [List.filterMap_cons, List.filter_cons]
    by_cases h : p a
    · rw [if_pos h, if_pos (by simpa using h), List.map_cons, ih]
    · rw [if_neg h, if_neg (by simpa using h), ih]

lemma sourceFileIssues_types (t : Table) (allowed : List String) :
    (sourceFileIssues t allowed).all (fun i =>
      ["source_file_missing", "source_file_null", "source_file_empty",
       "source_file_invalid"].contains i.issue_type) = true := by
  unfold sourceFileIssues
  cases findCol t "source_file" with
  | none => rfl
  | some c =>
    dsimp only
    split_ifs <;> rfl

/-- Claim C7: the validator's issues come in the fixed order
missing-values (one per column with at least one null, in column order),
negative-values (one per numeric column with at least one negative
value, in column order, the details listing up to 10 sample zero-based
row indices), then the `source_file` integrity issues, then at most one
row-level `duplicate_rows` issue (present exactly when some row repeats
an earlier one). -/
theorem C7_issue_order (t : Table) (listing : Option (List String)) :
    gather_validation_issues t listing
      = missingIssues t ++ negativeIssues t
        ++ sourceFileIssues t (allowedOf listing) ++ duplicateIssues t
    ∧ missingIssues t
        = (t.cols.filter (fun c => decide (0 < nullCount c))).map
            (fun c => mkMissingIssue t c)
    ∧ negativeIssues t
        = (t.cols.filter (fun c =>
            decide (c.dtype = .numeric ∧ 0 < (negIndices c).length))).map
          (fun c => mkNegativeIssue t c)
    ∧ (∀ c, mkNegativeIssue t c
        = ⟨"negative_values", c.name, (negIndices c).length,
            pctOf (negIndices c).length t.nrows,
            "Sample row indices: " ++ natListRepr ((negIndices c).take 10)⟩)
    ∧ ((sourceFileIssues t (allowedOf listing)).all (fun i =>
        ["source_file_missing", "source_file_null", "source_file_empty",
         "source_file_invalid"].contains i.issue_type) = true)
    ∧ (duplicateIssues t).length ≤ 1
    ∧ ((duplicateIssues t).all (fun i =>
        i.issue_type == "duplicate_rows" && i.column == "") = true)
    ∧ (duplicateIssues t ≠ [] ↔ 0 < dupRowCount t) := by
  refine ⟨rfl, ?_, ?_, fun c => rfl, sourceFileIssues_types t _, ?_, ?_, ?_⟩
  · exact filterMap_if_eq_filter_map _ _ _
  · exact filterMap_if_eq_filter_map _ _ _
  · unfold duplicateIssues
    split <;> simp
  · unfold duplicateIssues
    split <;> rfl
  · unfold duplicateIssues
    split
    · rename_i h
      simp [h]
    · rename_i h
      simp
      omega

lemma missingIssues_type (t : Table) :
    ∀ i ∈ missingIssues t, i.issue_type = "missing_values" := by
  intro i hi
  unfold missingIssues at hi
  rw [List.mem_filterMap] at hi
  obtain ⟨c, -, hc⟩ := hi
  by_cases h : 0 < nullCount c
  · rw [if_pos h] at hc
    cases hc
    rfl
  · rw [if_neg h] at hc
    cases hc

lemma negativeIssues_type (t : Table) :
    ∀ i ∈ negativeIssues t, i.issue_type = "negative_values" := by
  intro i hi
  unfold negativeIssues at hi
  rw [List.mem_filterMap] at hi
  obtain ⟨c, -, hc⟩ := hi
  by_cases h : c.dtype = .numeric ∧ 0 < (negIndices c).length
  · rw [if_pos h] at hc
    cases hc
    rfl
  · rw [if_neg h] at hc
    cases hc

lemma duplicateIssues_type (t : Table) :
    ∀ i ∈ duplicateIssues t, i.issue_type = "duplicate_rows" := by
  intro i hi
  unfold duplicateIssues at hi
  split at hi
  · rw [List.mem_singleton] at hi
    subst hi
    rfl
  · simp at hi

/-- With a `source_file` column present, the integrity issues split into
a prefix of null/empty issues and the conditional invalid-values
issue. -/
lemma sourceFileIssues_decomp (t : Table) (c : Column)
    (hfind : findCol t "source_file" = some c) (allowed : List String) :
    ∃ pre : List Issue,
      sourceFileIssues t allowed
        = pre ++ (if allowed.isEmpty then []
            else if 0 < (invalidSourceVals c allowed).length
              then [mkInvalidIssue t (invalidSourceVals c allowed)] else [])
      ∧ ∀ i ∈ pre, i.issue_type = "source_file_null"
          ∨ i.issue_type = "source_file_empty" := by
  unfold sourceFileIssues
  rw [hfind]
  dsimp only
  refine ⟨_, rfl, ?_⟩
  intro i hi
  rcases List.mem_append.1 hi with h | h
  · split at h
    · rw [List.mem_singleton] at h
      subst h
      exact Or.inl rfl
    · simp at h
  · split at h
    · rw [List.mem_singleton] at h
      subst h
      exact Or.inr rfl
    · simp at h

/-- Presence and contents of the `source_file_invalid` issue among the
gathered issues, for a table having a `source_file` column. -/
lemma gather_invalid_characterization (t : Table) (c : Column)
    (hfind : findCol t "source_file" = some c) (listing : Option (List String)) :
    ((∃ i ∈ gather_validation_issues t listing,
        i.issue_type = "source_file_invalid")
      ↔ (allowedOf listing ≠ [] ∧ invalidSourceVals c (allowedOf listing) ≠ []))
    ∧ (∀ i ∈ gather_validation_issues t listing,
        i.issue_type = "source_file_invalid" →
          i = mkInvalidIssue t (invalidSourceVals c (allowedOf listing))) := by
  obtain ⟨pre, hdecomp, hpre⟩ := sourceFileIssues_decomp t c hfind (allowedOf listing)
  unfold gather_validation_issues
  rw [hdecomp]
  have hpeel : ∀ i, i ∈ missingIssues t ++ negativeIssues t
        ++ (pre ++ (if (allowedOf listing).isEmpty then []
            else if 0 < (invalidSourceVals c (allowedOf listing)).length
              then [mkInvalidIssue t (invalidSourceVals c (allowedOf listing))] else []))
        ++ duplicateIssues t →
      i.issue_type = "source_file_invalid" →
      ((allowedOf listing ≠ [] ∧ invalidSourceVals c (allowedOf listing) ≠ [])
        ∧ i = mkInvalidIssue t (invalidSourceVals c (allowedOf listing))) := by
    intro i hi hty
    rcases List.mem_append.1 hi with hi2 | hdup
    · rcases List.mem_append.1 hi2 with hi3 | hsf
      · rcases List.mem_append.1 hi3 with hmiss | hneg
        · rw [missingIssues_type t i hmiss] at hty
          exact absurd hty (by decide)
        · rw [negativeIssues_type t i hneg] at hty
          exact absurd hty (by decide)
      · rcases List.mem_append.1 hsf with hpe | hinv
        · rcases hpre i hpe with h | h <;>
            (rw [h] at hty; exact absurd hty (by decide))
        · split at hinv
          · simp at hinv
          · split at hinv
            · rename_i hne0 hlen
              rw [List.mem_singleton] at hinv
              refine ⟨⟨?_, ?_⟩, hinv⟩
              · intro hnil
                rw [hnil] at hne0
                exact hne0 rfl
              · intro hnil
                rw [hnil] at hlen
                simp at hlen
            · simp at hinv
    · rw [duplicateIssues_type t i hdup] at hty
      exact absurd hty (by decide)
  constructor
  · constructor
    · rintro ⟨i, hi, hty⟩
      exact (hpeel i hi hty).1
    · rintro ⟨hne, hval⟩
      refine ⟨mkInvalidIssue t (invalidSourceVals c (allowedOf listing)), ?_, rfl⟩
      apply List.mem_append.2
      left
      apply List.mem_append.2
      right
      apply List.mem_append.2
      right
      rw [if_neg (by
          intro hcon
          rw [List.isEmpty_iff] at hcon
          exact hne hcon),
        if_pos (List.length_pos.2 hval)]
      exact List.mem_singleton.2 rfl
  · intro i hi hty
    exact (hpeel i hi hty).2

/-- The C2 counterexample table: one `source_file` column holding
`"bad.csv"`. -/
def badSourceTable : Table :=
  ⟨[⟨"source_file", .obj, [some (.str "bad.csv")]⟩]⟩

/-- Claim C2 counterexample: the directory listing `["notes.txt"]` is
readable yet holds no eligible CSV name, the non-null `source_file`
value `"bad.csv"` is not among the eligible names, but the validator
emits no `source_file_invalid` issue — the claim as stated requires
one whenever the directory is readable. -/
theorem C2_counterexample_skip_on_empty :
    eligibleNames ["notes.txt"] = []
    ∧ some "bad.csv" ∈ sfStrings ⟨"source_file", .obj, [some (.str "bad.csv")]⟩
    ∧ "bad.csv" ∉ eligibleNames ["notes.txt"]
    ∧ (gather_validation_issues badSourceTable (some ["notes.txt"])).all
        (fun i => !(i.issue_type == "source_file_invalid")) = true := by
  refine ⟨by decide, by decide, by decide, by decide⟩

/-- Claim C2 (amended): for a table with a `source_file` column, the
invalid-value check runs only when the eligible CSV name set of the
directory is non-empty: a `source_file_invalid` issue is then emitted
exactly when some non-null stringified `source_file` value is outside
that set, and any such issue counts the offending cells and lists up to
10 distinct offending values; when the directory is unreadable — or
readable with no eligible CSV names — the check is skipped silently and
no `source_file_invalid` issue is emitted. -/
theorem C2_source_file_invalid_amended (t : Table) (c : Column)
    (hfind : findCol t "source_file" = some c) :
    (∀ listing : List String, eligibleNames listing ≠ [] →
      ((∃ i ∈ gather_validation_issues t (some listing),
          i.issue_type = "source_file_invalid")
        ↔ invalidSourceVals c (eligibleNames listing) ≠ [])
      ∧ (∀ i ∈ gather_validation_issues t (some listing),
          i.issue_type = "source_file_invalid" →
            i = mkInvalidIssue t (invalidSourceVals c (eligibleNames listing))))
    ∧ (∀ i ∈ gather_validation_issues t none,
        i.issue_type ≠ "source_file_invalid") := by
  constructor
  · intro listing hne
    have h := gather_invalid_characterization t c hfind (some listing)
    refine ⟨?_, h.2⟩
    rw [h.1]
    constructor
    · rintro ⟨-, hv⟩
      exact hv
    · intro hv
      exact ⟨hne, hv⟩
  · intro i hi hty
    have h := gather_invalid_characterization t c hfind none
    have hex : ∃ i ∈ gather_validation_issues t none,
        i.issue_type = "source_file_invalid" := ⟨i, hi, hty⟩
    rw [h.1] at hex
    exact hex.1 rfl

/-- Witness for the amended claim C2: with the eligible name
`"data.csv"` present, the offending value `"bad.csv"` produces a
`source_file_invalid` issue. -/
theorem C2_source_file_invalid_amended_witness :
    findCol badSourceTable "source_file"
        = some ⟨"source_file", .obj, [some (.str "bad.csv")]⟩
    ∧ eligibleNames ["data.csv"] ≠ []
    ∧ invalidSourceVals ⟨"source_file", .obj, [some (.str "bad.csv")]⟩
        (eligibleNames ["data.csv"]) ≠ []
    ∧ (∃ i ∈ gather_validation_issues badSourceTable (some ["data.csv"]),
        i.issue_type = "source_file_invalid") := by
  have h := C2_source_file_invalid_amended badSourceTable
    ⟨"source_file", .obj, [some (.str "bad.csv")]⟩ (by decide)
  refine ⟨by decide, by decide, by decide, ?_⟩
  exact ((h.1 ["data.csv"] (by decide)).1).2 (by decide)

/-- Well-typedness of a column: a numeric-dtype column holds no text
cells (the engine's typing guarantee). -/
def wfColumn (c : Column) : Bool :=
  c.dtype != .numeric || c.cells.all (fun x =>
    match x with
    | some (.str _) => false
    | _ => true)

lemma countP_nonNull_eq_numeric_length :
    ∀ (l : List Cell),
      (∀ x ∈ l, (match x with
        | some (.str _) => false
        | _ => true) = true) →
      l.countP (fun x => !x.isNone)
        = (l.filterMap (fun x =>
            match x with
            | some (.num q) => some q
            | _ => none)).length := by
  intro l
  induction l with
  | nil =>
    intro _
    rfl
  | cons x xs ih =>
    intro h
    rw [List.countP_cons, List.filterMap_cons]
    have htail := ih (fun y hy => h y (List.mem_cons_of_mem _ hy))
    cases x with
    | none => simpa using htail
    | some v =>
      cases v with
      | str s =>
        have := h (some (.str s)) (List.mem_cons_self _ _)
        simp at this
      | num q => simpa using htail

lemma nonNullCount_eq_of_wf {c : Column} (hdt : c.dtype = .numeric)
    (hwf : wfColumn c = true) : nonNullCount c = (numericVals c).length := by
  unfold wfColumn at hwf
  rw [hdt] at hwf
  simp only [bne_self_eq_false, Bool.false_or, List.all_eq_true] at hwf
  exact countP_nonNull_eq_numeric_length c.cells hwf

/-- Claim C8: `profile_columns` emits one profile row per column, in the
input table's column order; for a well-typed numeric column the min,
max, mean and (squared) standard deviation are computed over the
non-null values and are all null when there are no non-null values —
the min is a least element of those values, the max a greatest, the
mean their sum over their count, and the (squared) standard deviation
the ddof-1 sample variance when there are at least two values and null
otherwise; for a non-numeric column the profile instead carries the
first up to 5 distinct stringified non-null values joined with ", ". -/
theorem C8_profile_columns (t : Table) :
    profile_columns t = t.cols.map profileOne
    ∧ (profile_columns t).length = t.cols.length
    ∧ (profile_columns t).map (fun r => r.column_name) = t.cols.map (fun c => c.name)
    ∧ (∀ c ∈ t.cols, c.dtype = .numeric → wfColumn c = true →
        (numericVals c = [] →
          (profileOne c).minV = none ∧ (profileOne c).maxV = none
          ∧ (profileOne c).meanV = none ∧ (profileOne c).stdSquared = none)
        ∧ (numericVals c ≠ [] →
            (∃ m, (profileOne c).minV = some m ∧ m ∈ numericVals c
              ∧ ∀ x ∈ numericVals c, m ≤ x)
            ∧ (∃ M, (profileOne c).maxV = some M ∧ M ∈ numericVals c
              ∧ ∀ x ∈ numericVals c, x ≤ M)
            ∧ (profileOne c).meanV
              = some ((numericVals c).sum / ((numericVals c).length : Rat)))
        ∧ ((numericVals c).length < 2 → (profileOne c).stdSquared = none)
        ∧ (2 ≤ (numericVals c).length →
            (profileOne c).stdSquared
              = some ((((numericVals c).map (fun x =>
                  (x - (numericVals c).sum / ((numericVals c).length : Rat)) ^ 2)).sum)
                / (((numericVals c).length : Rat) - 1))))
    ∧ (∀ c ∈ t.cols, c.dtype = .obj →
        (profileOne c).sample_values
          = some (String.intercalate ", "
            ((dedupFirst ((nonNullCells c).map cellToStr)).take 5))
        ∧ (profileOne c).minV = none ∧ (profileOne c).maxV = none
        ∧ (profileOne c).meanV = none ∧ (profileOne c).stdSquared = none) := by
  refine ⟨rfl, ?_, ?_, ?_, ?_⟩
  · unfold profile_columns
    exact List.length_map _ _
  · unfold profile_columns
    rw [List.map_map]
    apply List.map_congr_left
    intro c _
    simp only [Function.comp]
    unfold profileOne
    split <;> rfl
  · intro c _ hdt hwf
    have hcount := nonNullCount_eq_of_wf hdt hwf
    have hprof : profileOne c =
        { column_name := c.name
          dtype := dtypeLabel c.dtype
          count := c.cells.length
          non_null_count := nonNullCount c
          null_count := nullCount c
          null_pct := pctOf (nullCount c) c.cells.length
          num_unique := (dedupFirst (nonNullCells c)).length
          minV := if nonNullCount c = 0 then none else (numericVals c).min?
          maxV := if nonNullCount c = 0 then none else (numericVals c).max?
          meanV := if nonNullCount c = 0 then none
            else some ((numericVals c).sum / ((numericVals c).length : Rat))
          stdSquared := if nonNullCount c = 0 then none
            else sampleVarOpt (numericVals c)
          sample_values := none } := by
      unfold profileOne
      rw [if_pos hdt]
    refine ⟨?_, ?_, ?_, ?_⟩
    · intro hnil
      have hz : nonNullCount c = 0 := by
        rw [hcount, hnil]
        rfl
      rw [hprof]
      simp [hz]
    · intro hne
      have hz : ¬(nonNullCount c = 0) := by
        rw [hcount]
        intro h0
        exact hne (List.length_eq_zero.1 h0)
      rw [hprof]
      simp only [hz, if_neg, if_false]
      refine ⟨?_, ?_, by simp⟩
      · obtain ⟨m, hm⟩ : ∃ m, (numericVals c).min? = some m := by
          cases hv : numericVals c with
          | nil => exact absurd hv hne
          | cons a as => exact ⟨_, List.min?_cons⟩
        refine ⟨m, by simp [hm], List.min?_mem min_choice hm, ?_⟩
        exact (List.le_min?_iff (fun _ _ _ => le_min_iff) hm).1 (le_refl m)
      · obtain ⟨M, hM⟩ : ∃ M, (numericVals c).max? = some M := by
          cases hv : numericVals c with
          | nil => exact absurd hv hne
          | cons a as => exact ⟨_, List.max?_cons⟩
        refine ⟨M, by simp [hM], List.max?_mem max_choice hM, ?_⟩
        exact (List.max?_le_iff (fun _ _ _ => max_le_iff) hM).1 (le_refl M)
    · intro hlt
      rw [hprof]
      by_cases hz : nonNullCount c = 0
      · simp only [hz, if_pos]
      · simp only [hz, if_neg, if_false]
        unfold sampleVarOpt
        rw [if_pos hlt]
    · intro hge
      have hz : ¬(nonNullCount c = 0) := by
        rw [hcount]
        omega
      rw [hprof]
      simp only [hz, if_neg, if_false]
      unfold sampleVarOpt
      rw [if_neg (by omega)]
  · intro c _ hdt
    have hprof : profileOne c =
        { column_name := c.name
          dtype := dtypeLabel c.dtype
          count := c.cells.length
          non_null_count := nonNullCount c
          null_count := nullCount c
          null_pct := pctOf (nullCount c) c.cells.length
          num_unique := (dedupFirst (nonNullCells c)).length
          minV := none
          maxV := none
          meanV := none
          stdSquared := none
          sample_values := some (String.intercalate ", "
            ((dedupFirst ((nonNullCells c).map cellToStr)).take 5)) } := by
      unfold profileOne
      rw [if_neg (by rw [hdt]; decide)]
    rw [hprof]
    exact ⟨rfl, rfl, rfl, rfl, rfl⟩

/-- Witness for claim C8 at a two-column table: a numeric column
`[1, 2, null]` and an object column `["x", null, "y"]`. -/
theorem C8_profile_columns_witness :
    (⟨"a", .numeric, [some (.num 1), some (.num 2), none]⟩ : Column)
        ∈ (⟨[⟨"a", .numeric, [some (.num 1), some (.num 2), none]⟩,
            ⟨"b", .obj, [some (.str "x"), none, some (.str "y")]⟩]⟩ : Table).cols
    ∧ wfColumn ⟨"a", .numeric, [some (.num 1), some (.num 2), none]⟩ = true
    ∧ (∃ m, (profileOne ⟨"a", .numeric, [some (.num 1), some (.num 2), none]⟩).minV
          = some m
        ∧ m ∈ numericVals ⟨"a", .numeric, [some (.num 1), some (.num 2), none]⟩
        ∧ ∀ x ∈ numericVals ⟨"a", .numeric, [some (.num 1), some (.num 2), none]⟩,
            m ≤ x)
    ∧ (profileOne ⟨"b", .obj, [some (.str "x"), none, some (.str "y")]⟩).sample_values
        = some (String.intercalate ", "
          ((dedupFirst ((nonNullCells
            ⟨"b", .obj, [some (.str "x"), none, some (.str "y")]⟩).map
              cellToStr)).take 5)) := by
  have h := C8_profile_columns
    ⟨[⟨"a", .numeric, [some (.num 1), some (.num 2), none]⟩,
      ⟨"b", .obj, [some (.str "x"), none, some (.str "y")]⟩]⟩
  refine ⟨by decide, by decide, ?_, ?_⟩
  · exact ((h.2.2.2.1 _ (by decide) rfl (by decide)).2.1 (by decide)).1
  · exact (h.2.2.2.2 _ (by decide) rfl).1

end Orbis
